import Mathlib

/-!
# Verification of the OpenBao replication synchronizer

A shallow embedding of `replication/sync.py` (class `ReplicationSynchronizer`)
and of the effect semantics of the client operations in `replication/client.py`
(class `OpenBaoClient`), together with theorems checking the specification's
claims about path exclusion, cluster reset, the configuration replicators, the
secret-tree replicator and the `full_sync` orchestrator.

Modelling conventions:
* One pass of the synchronizer is embedded as a pure function from the two
  instance states (primary, secondary) to the list of API calls it issues and
  the boolean it returns.  Every call the Python code makes on a client is
  recorded as a `Call` (target instance + operation).
* The outcome of a client call (HTTP failure caught inside the client, or a
  JSON-parse error that escapes the client method and is caught by the
  synchronizer's `try/except`) is injected through a `Faults` record per
  instance, so that the error-handling paths of the source are reachable.
* Python strings are Lean `String`s; `str.startswith` / `str.endswith` /
  `str.rstrip('/')` / `str.strip('/')` are embedded character-exactly below.
* The secret hierarchy served by `list_secrets` / `read_secret` is a finite
  tree (`SNode`): listing a directory returns its child names, directory names
  carrying the trailing `/` exactly as the KV API reports them; reading a leaf
  returns its payload.
-/

/-! ## String helpers (Python `startswith`, `endswith`, `rstrip('/')`, `strip('/')`) -/

/-- Python `s.startswith(pre)`: character-wise prefix test. -/
def strStartsWith (s pre : String) : Bool := pre.data.isPrefixOf s.data

/-- Python `s.endswith(suf)`: character-wise suffix test. -/
def strEndsWith (s suf : String) : Bool := suf.data.isSuffixOf s.data

/-- Python `s.rstrip('/')`: remove all trailing `/` characters. -/
def rstripSlash (s : String) : String :=
  ⟨(s.data.reverse.dropWhile (· == '/')).reverse⟩

/-- Python `s.strip('/')`: remove all leading and trailing `/` characters. -/
def stripSlash (s : String) : String :=
  ⟨((s.data.dropWhile (· == '/')).reverse.dropWhile (· == '/')).reverse⟩

/-! ## Data model -/

/-- A secret payload: the key/value mapping stored at a leaf
(`Dict[str, Any]` in the source, with opaque values). -/
abbrev Payload := List (String × String)

/-- Configuration of a mount (secret engine or auth method) as returned by
`list_secret_engines` / `list_auth_methods`: the `type`, `description`,
`config` and `options` fields the synchronizer extracts with `.get`.
`type := none` models a listing entry with no (or empty) `type` field. -/
structure MountConfig where
  type : Option String
  description : String
  config : List (String × String)
  options : List (String × String)
deriving Repr, DecidableEq

mutual

/-- A node of the secret hierarchy under one mount: either a leaf holding a
payload, or a directory of named children. -/
inductive SNode where
  | leaf (data : Payload)
  | dir (children : SChildren)
deriving Repr

/-- Children of a directory node, in listing order. -/
inductive SChildren where
  | nil
  | cons (name : String) (node : SNode) (rest : SChildren)
deriving Repr

end

/-- Child names of a directory, trailing `/` added to directory entries. -/
def listKeysOf : SChildren → List String
  | .nil => []
  | .cons name child rest =>
      (match child with
       | .dir _ => name ++ "/"
       | .leaf _ => name) :: listKeysOf rest

/-- The keys `list_secrets` returns for a node: child names, directories
reported with a trailing `/` (as the KV list API does); listing a leaf (or a
missing path) yields `[]`, matching the client's empty-on-error result. -/
def listKeys : SNode → List String
  | .leaf _ => []
  | .dir cs => listKeysOf cs

/-- Observable state of one OpenBao instance, as read and written through the
client operations the synchronizer uses. `secrets` maps a mount path (with the
trailing slash already stripped) to the secret tree below it; `kvWrites`
records the secrets written into the instance by `write_secret`. -/
structure InstanceState where
  healthy : Bool
  engines : List (String × MountConfig)
  auths : List (String × MountConfig)
  policies : List String
  policyDocs : List (String × String)
  secrets : List (String × SNode)
  kvWrites : List (String × Payload)

/-- Fault injection for the client calls against one instance.  The three
`parseFail*` flags model a malformed JSON body in the corresponding listing:
the parse error escapes the client method (which only catches
`RequestException`) and is caught by the synchronizer's surrounding
`try/except`.  The `*Fails` lists name the arguments for which the
corresponding mutating (or read) call fails with a request error, which the
client catches and converts to `False`/`None`. -/
structure Faults where
  parseFailEngines : Bool
  parseFailAuths : Bool
  parseFailPolicies : Bool
  readPolicyFails : List String
  readSecretFails : List String
  enableEngineFails : List String
  enableAuthFails : List String
  writePolicyFails : List String
  writeSecretFails : List String
  disableEngineFails : List String
  disableAuthFails : List String
  deletePolicyFails : List String

/-- No injected faults: every call parses and succeeds. -/
def noFaults : Faults := ⟨false, false, false, [], [], [], [], [], [], [], [], []⟩

/-! ## Calls -/

/-- Which instance a client call is made against. -/
inductive Target where
  | primary
  | secondary
deriving Repr, DecidableEq

/-- One client operation (`OpenBaoClient` method) with its arguments. -/
inductive CallOp where
  | healthCheck
  | listSecretEngines
  | listAuthMethods
  | listPolicies
  | readPolicy (name : String)
  | listSecrets (path : String)
  | readSecret (path : String)
  | enableSecretEngine (path etype desc : String)
      (cfg opts : List (String × String))
  | enableAuthMethod (path atype desc : String) (cfg : List (String × String))
  | writePolicy (name doc : String)
  | writeSecret (path : String) (data : Payload)
  | disableSecretEngine (path : String)
  | disableAuthMethod (path : String)
  | deletePolicy (name : String)
deriving Repr, DecidableEq

/-- Whether an operation mutates the instance it is sent to. -/
def CallOp.isMutating : CallOp → Bool
  | .enableSecretEngine _ _ _ _ _ => true
  | .enableAuthMethod _ _ _ _ => true
  | .writePolicy _ _ => true
  | .writeSecret _ _ => true
  | .disableSecretEngine _ => true
  | .disableAuthMethod _ => true
  | .deletePolicy _ => true
  | _ => false

/-- A recorded client call: the instance it is sent to and the operation. -/
structure Call where
  target : Target
  op : CallOp
deriving Repr, DecidableEq

/-- Whether a mutating call succeeds (`True` from the client method) or fails
with a caught request error (`False`).  Non-mutating calls always "succeed"
here; their data outcome is modelled separately. -/
def callSucceeds (f : Faults) : CallOp → Bool
  | .enableSecretEngine p _ _ _ _ => !(decide (p ∈ f.enableEngineFails))
  | .enableAuthMethod p _ _ _ => !(decide (p ∈ f.enableAuthFails))
  | .writePolicy n _ => !(decide (n ∈ f.writePolicyFails))
  | .writeSecret p _ => !(decide (p ∈ f.writeSecretFails))
  | .disableSecretEngine p => !(decide (p ∈ f.disableEngineFails))
  | .disableAuthMethod p => !(decide (p ∈ f.disableAuthFails))
  | .deletePolicy n => !(decide (n ∈ f.deletePolicyFails))
  | _ => true

/-- Effect of one operation on the state of the instance it is sent to.
A mutating call that fails (per `callSucceeds`) leaves the state unchanged;
non-mutating calls never change state. -/
def applyOp (f : Faults) (st : InstanceState) (op : CallOp) : InstanceState :=
  match op with
  | .enableSecretEngine p t d cfg opts =>
      if callSucceeds f (.enableSecretEngine p t d cfg opts) then
        { st with engines :=
            (st.engines.filter (fun e => !(e.1 == p ++ "/"))) ++
              [(p ++ "/", ⟨some t, d, cfg, opts⟩)] }
      else st
  | .enableAuthMethod p t d cfg =>
      if callSucceeds f (.enableAuthMethod p t d cfg) then
        { st with auths :=
            (st.auths.filter (fun a => !(a.1 == p ++ "/"))) ++
              [(p ++ "/", ⟨some t, d, cfg, []⟩)] }
      else st
  | .writePolicy n doc =>
      if callSucceeds f (.writePolicy n doc) then
        { st with
            policies := if n ∈ st.policies then st.policies else st.policies ++ [n],
            policyDocs := (st.policyDocs.filter (fun d2 => !(d2.1 == n))) ++ [(n, doc)] }
      else st
  | .writeSecret p data =>
      if callSucceeds f (.writeSecret p data) then
        { st with kvWrites := (st.kvWrites.filter (fun w => !(w.1 == p))) ++ [(p, data)] }
      else st
  | .disableSecretEngine p =>
      if callSucceeds f (.disableSecretEngine p) then
        { st with engines := st.engines.filter (fun e => !(rstripSlash e.1 == p)) }
      else st
  | .disableAuthMethod p =>
      if callSucceeds f (.disableAuthMethod p) then
        { st with auths := st.auths.filter (fun a => !(rstripSlash a.1 == p)) }
      else st
  | .deletePolicy n =>
      if callSucceeds f (.deletePolicy n) then
        { st with
            policies := st.policies.filter (fun m => !(m == n)),
            policyDocs := st.policyDocs.filter (fun d2 => !(d2.1 == n)) }
      else st
  | _ => st

/-- Apply a trace of calls to the pair (primary state, secondary state). -/
def applyCall (fp fs : Faults) (w : InstanceState × InstanceState) (c : Call) :
    InstanceState × InstanceState :=
  match c.target with
  | .primary => (applyOp fp w.1 c.op, w.2)
  | .secondary => (w.1, applyOp fs w.2 c.op)

/-- Fold a call trace over the world state. -/
def applyCalls (fp fs : Faults) (w : InstanceState × InstanceState)
    (cs : List Call) : InstanceState × InstanceState :=
  cs.foldl (applyCall fp fs) w

/-- Apply only the secondary-targeted calls of a trace to an instance state. -/
def applySecondary (f : Faults) (st : InstanceState) (cs : List Call) :
    InstanceState :=
  cs.foldl (fun st c => if c.target == Target.secondary then applyOp f st c.op else st) st

/-! ## The synchronizer (`replication/sync.py`) -/

/-- `ReplicationSynchronizer.should_exclude_path` (sync.py lines 21-26):
true iff the path starts with one of the configured exclusion prefixes. -/
def shouldExcludePath (excludePaths : List String) (path : String) : Bool :=
  excludePaths.any (fun exclude => strStartsWith path exclude)

/-- `_health_check` (sync.py lines 54-67): primary's health first, then
secondary's; short-circuits on the first failure. -/
def healthCheckSeq (p s : InstanceState) : List Call × Bool :=
  let c1 : Call := ⟨.primary, .healthCheck⟩
  if !p.healthy then ([c1], false)
  else
    let c2 : Call := ⟨.secondary, .healthCheck⟩
    if !s.healthy then ([c1, c2], false)
    else ([c1, c2], true)

/-- The disable targets of `_clear_secondary`'s first loop (sync.py lines
75-79): every listed secret engine whose path is not `sys/`- or
`identity/`-prefixed, disabled at the path with trailing `/` stripped. -/
def resetEnginePaths (s : InstanceState) : List String :=
  s.engines.filterMap (fun e =>
    if !strStartsWith e.1 "sys/" && !strStartsWith e.1 "identity/" then
      some (rstripSlash e.1)
    else none)

/-- The disable targets of `_clear_secondary`'s second loop (sync.py lines
82-86): every listed auth method other than `token/` whose path is not
`sys/`-prefixed. -/
def resetAuthPaths (s : InstanceState) : List String :=
  s.auths.filterMap (fun a =>
    if !(a.1 == "token/") && !strStartsWith a.1 "sys/" then
      some (rstripSlash a.1)
    else none)

/-- The delete targets of `_clear_secondary`'s third loop (sync.py lines
89-94): every listed policy other than `root` and `default`. -/
def resetPolicyNames (s : InstanceState) : List String :=
  s.policies.filter (fun n => !(n == "root") && !(n == "default"))

/-- `_clear_secondary` (sync.py lines 69-101): list and disable the
secondary's secret engines, then its auth methods, then delete its policies,
skipping only the hard-coded system objects.  A parse error escaping one of
the three listing calls is caught by the method's `try/except` and turns the
whole reset into a `False` result; results of the individual disable/delete
calls are ignored. -/
def clearSecondary (f : Faults) (s : InstanceState) : List Call × Bool :=
  let cEng : Call := ⟨.secondary, .listSecretEngines⟩
  if f.parseFailEngines then ([cEng], false)
  else
    let engCalls := (resetEnginePaths s).map
      (fun p => (⟨.secondary, .disableSecretEngine p⟩ : Call))
    let cAuth : Call := ⟨.secondary, .listAuthMethods⟩
    if f.parseFailAuths then ([cEng] ++ engCalls ++ [cAuth], false)
    else
      let authCalls := (resetAuthPaths s).map
        (fun p => (⟨.secondary, .disableAuthMethod p⟩ : Call))
      let cPol : Call := ⟨.secondary, .listPolicies⟩
      if f.parseFailPolicies then
        ([cEng] ++ engCalls ++ [cAuth] ++ authCalls ++ [cPol], false)
      else
        let polCalls := (resetPolicyNames s).map
          (fun n => (⟨.secondary, .deletePolicy n⟩ : Call))
        ([cEng] ++ engCalls ++ [cAuth] ++ authCalls ++ [cPol] ++ polCalls, true)

/-- One iteration of a replicator loop that issues at most one call per item:
skipped items leave the accumulator unchanged, applied items append their call
and AND the call's outcome into the running success flag. -/
def syncStep {α : Type} (fs : Faults) (callOf : α → Option Call)
    (acc : List Call × Bool) (x : α) : List Call × Bool :=
  match callOf x with
  | none => acc
  | some c => (acc.1 ++ [c], acc.2 && callSucceeds fs c.op)

/-- The enable call `_sync_secret_engines` derives from one primary listing
entry (sync.py lines 111-133), or `none` when the entry is skipped: excluded
path, `sys/`/`identity/` prefix, or missing/empty `type`. -/
def engineEnableCallOf (excl : List String) (e : String × MountConfig) :
    Option Call :=
  if shouldExcludePath excl e.1 then none
  else if strStartsWith e.1 "sys/" || strStartsWith e.1 "identity/" then none
  else
    match e.2.type with
    | none => none
    | some t =>
        if t.isEmpty then none
        else
          some ⟨.secondary,
            .enableSecretEngine (rstripSlash e.1) t e.2.description e.2.config e.2.options⟩

/-- `_sync_secret_engines` (sync.py lines 103-139). -/
def syncSecretEngines (excl : List String) (fp : Faults) (p : InstanceState)
    (fs : Faults) : List Call × Bool :=
  let c0 : Call := ⟨.primary, .listSecretEngines⟩
  if fp.parseFailEngines then ([c0], false)
  else p.engines.foldl (syncStep fs (engineEnableCallOf excl)) ([c0], true)

/-- The enable call `_sync_auth_methods` derives from one primary listing
entry (sync.py lines 149-169), or `none` when the entry is skipped: excluded
path, the `token/` method, or missing/empty `type`. -/
def authEnableCallOf (excl : List String) (a : String × MountConfig) :
    Option Call :=
  if shouldExcludePath excl a.1 then none
  else if a.1 == "token/" then none
  else
    match a.2.type with
    | none => none
    | some t =>
        if t.isEmpty then none
        else
          some ⟨.secondary,
            .enableAuthMethod (rstripSlash a.1) t a.2.description a.2.config⟩

/-- `_sync_auth_methods` (sync.py lines 141-176). -/
def syncAuthMethods (excl : List String) (fp : Faults) (p : InstanceState)
    (fs : Faults) : List Call × Bool :=
  let c0 : Call := ⟨.primary, .listAuthMethods⟩
  if fp.parseFailAuths then ([c0], false)
  else p.auths.foldl (syncStep fs (authEnableCallOf excl)) ([c0], true)

/-- Result of `read_policy` on the primary (client.py lines 173-181): `none`
on a request error, otherwise the stored document (defaulting to `""`). -/
def readPolicyResult (fp : Faults) (p : InstanceState) (n : String) :
    Option String :=
  if n ∈ fp.readPolicyFails then none
  else some (((p.policyDocs.find? (fun d => d.1 == n)).map (·.2)).getD "")

/-- The calls `_sync_policies` issues for one listed policy name (sync.py
lines 187-198): nothing for the reserved names, a primary read (and, when the
read yields a document, a secondary write) otherwise. -/
def policyCallsOf (fp : Faults) (p : InstanceState) (n : String) : List Call :=
  if n == "root" || n == "default" then []
  else
    let readC : Call := ⟨.primary, .readPolicy n⟩
    match readPolicyResult fp p n with
    | none => [readC]
    | some doc => [readC, ⟨.secondary, .writePolicy n doc⟩]

/-- One iteration of the `_sync_policies` loop. -/
def policyStep (fp : Faults) (p : InstanceState) (fs : Faults)
    (acc : List Call × Bool) (n : String) : List Call × Bool :=
  (acc.1 ++ policyCallsOf fp p n,
   acc.2 && (policyCallsOf fp p n).all (fun c => callSucceeds fs c.op))

/-- `_sync_policies` (sync.py lines 178-204). -/
def syncPolicies (fp : Faults) (p : InstanceState) (fs : Faults) :
    List Call × Bool :=
  let c0 : Call := ⟨.primary, .listPolicies⟩
  if fp.parseFailPolicies then ([c0], false)
  else p.policies.foldl (policyStep fp p fs) ([c0], true)

/-- The leaf branch of `_sync_secrets_recursive` (sync.py lines 250-259):
read the secret from the primary; if the result is truthy (present and
non-empty) write it to the secondary and AND the write outcome into the
branch result, otherwise log a warning and continue. -/
def processLeaf (rf wf : List String) (cur : String) (payload : Payload) :
    List Call × Bool :=
  let readCall : Call := ⟨.primary, .readSecret cur⟩
  let data : Option Payload := if cur ∈ rf then none else some payload
  match data with
  | some d =>
      if !d.isEmpty then
        ([readCall, ⟨.secondary, .writeSecret cur d⟩], !(decide (cur ∈ wf)))
      else ([readCall], true)
  | none => ([readCall], true)

mutual

/-- `_sync_secrets_recursive` (sync.py lines 233-265): list the primary's
keys at `mountPath/subPath` (trailing `/` stripped) and process them in
order.  `rf` / `wf` are the primary read-failure and secondary write-failure
injections for `read_secret` / `write_secret`. -/
def syncSecretsRecursive (rf wf : List String) (node : SNode)
    (mountPath subPath : String) : List Call × Bool :=
  let fullPath := rstripSlash (mountPath ++ "/" ++ subPath)
  let listCall : Call := ⟨.primary, .listSecrets fullPath⟩
  match node with
  | .leaf _ => ([listCall], true)
  | .dir cs =>
      let r := syncChildren rf wf cs mountPath subPath fullPath
      (listCall :: r.1, r.2)

/-- The key loop of `_sync_secrets_recursive` (sync.py lines 242-259): a key
with a trailing `/` is a directory and is recursed into with the sub-path
extended; any other key is a leaf and is read (and, if non-empty, written).
A failed branch or write flips the running success flag but processing of the
remaining keys continues. -/
def syncChildren (rf wf : List String) (cs : SChildren)
    (mountPath subPath fullPath : String) : List Call × Bool :=
  match cs with
  | .nil => ([], true)
  | .cons name child rest =>
      let head :=
        match child with
        | .dir cs' =>
            syncSecretsRecursive rf wf (.dir cs') mountPath
              (stripSlash (subPath ++ "/" ++ (name ++ "/")))
        | .leaf pl =>
            if strEndsWith name "/" then
              syncSecretsRecursive rf wf (.leaf pl) mountPath
                (stripSlash (subPath ++ "/" ++ name))
            else processLeaf rf wf (stripSlash (fullPath ++ "/" ++ name)) pl
      let tail := syncChildren rf wf rest mountPath subPath fullPath
      (head.1 ++ tail.1, head.2 && tail.2)

end

/-- The secret tree the primary serves below a mount (looked up by the mount
path with its trailing `/` stripped); a missing mount behaves as an empty
directory, matching the client's empty listing on error. -/
def mountTree (p : InstanceState) (mount : String) : SNode :=
  (((p.secrets.find? (fun e => e.1 == mount)).map (·.2)).getD (.dir .nil))

/-- The per-mount work of `_sync_secrets` (sync.py lines 215-225): excluded
and `sys/`/`identity/` mounts contribute nothing; any other mount is walked
recursively from its root. -/
def mountSyncOf (excl : List String) (fp fs : Faults) (p : InstanceState)
    (e : String × MountConfig) : List Call × Bool :=
  if shouldExcludePath excl e.1 then ([], true)
  else if strStartsWith e.1 "sys/" || strStartsWith e.1 "identity/" then ([], true)
  else
    syncSecretsRecursive fp.readSecretFails fs.writeSecretFails
      (mountTree p (rstripSlash e.1)) (rstripSlash e.1) ""

/-- One iteration of the `_sync_secrets` mount loop. -/
def mountStep (excl : List String) (fp fs : Faults) (p : InstanceState)
    (acc : List Call × Bool) (e : String × MountConfig) : List Call × Bool :=
  (acc.1 ++ (mountSyncOf excl fp fs p e).1, acc.2 && (mountSyncOf excl fp fs p e).2)

/-- `_sync_secrets` (sync.py lines 206-231). -/
def syncSecrets (excl : List String) (fp : Faults) (p : InstanceState)
    (fs : Faults) : List Call × Bool :=
  let c0 : Call := ⟨.primary, .listSecretEngines⟩
  if fp.parseFailEngines then ([c0], false)
  else p.engines.foldl (mountStep excl fp fs p) ([c0], true)

/-- `full_sync` (sync.py lines 28-52): health checks, then the cluster reset,
each short-circuiting to `False`; then the four replication phases run
unconditionally in order and their results are ANDed. -/
def fullSync (excl : List String) (fp : Faults) (p : InstanceState)
    (fs : Faults) (s : InstanceState) : List Call × Bool :=
  let h := healthCheckSeq p s
  if !h.2 then (h.1, false)
  else
    let r := clearSecondary fs s
    if !r.2 then (h.1 ++ r.1, false)
    else
      let e1 := syncSecretEngines excl fp p fs
      let e2 := syncAuthMethods excl fp p fs
      let e3 := syncPolicies fp p fs
      let e4 := syncSecrets excl fp p fs
      (h.1 ++ r.1 ++ e1.1 ++ e2.1 ++ e3.1 ++ e4.1,
       e1.2 && e2.2 && e3.2 && e4.2)

/-! ## String lemmas -/

theorem strStartsWith_iff (s pre : String) :
    strStartsWith s pre = true ↔ pre.data <+: s.data := by
  unfold strStartsWith
  exact List.isPrefixOf_iff_prefix

theorem rstripSlash_data (s : String) :
    (rstripSlash s).data = s.data.rdropWhile (· == '/') := rfl

/-- Stripping trailing slashes only shortens a string, so any prefix of the
stripped string is a prefix of the original. -/
theorem strStartsWith_rstripSlash (s pre : String)
    (h : strStartsWith (rstripSlash s) pre = true) :
    strStartsWith s pre = true := by
  rw [strStartsWith_iff] at h ⊢
  refine h.trans ?_
  rw [rstripSlash_data]
  exact List.rdropWhile_prefix _ _

/-! ## Trace views -/

/-- Paths of the `read_secret` calls in a trace, in order. -/
def readSecretPaths (t : List Call) : List String :=
  t.filterMap (fun c => match c.op with | .readSecret p => some p | _ => none)

/-- Paths of the `write_secret` calls in a trace, in order. -/
def writeSecretPaths (t : List Call) : List String :=
  t.filterMap (fun c => match c.op with | .writeSecret p _ => some p | _ => none)

/-- A call that is harmless towards the primary: it either targets the
secondary or does not mutate. -/
def primOk (c : Call) : Bool := (c.target == Target.secondary) || !c.op.isMutating

theorem readSecretPaths_append (a b : List Call) :
    readSecretPaths (a ++ b) = readSecretPaths a ++ readSecretPaths b := by
  simp [readSecretPaths]

theorem writeSecretPaths_append (a b : List Call) :
    writeSecretPaths (a ++ b) = writeSecretPaths a ++ writeSecretPaths b := by
  simp [writeSecretPaths]

/-! ## Normal forms of the replication phases

Each replicator loop is a `foldl` that appends the calls of the current item
and ANDs its outcome; these lemmas rewrite a whole phase into the list of
calls it issues and the conjunction it returns. -/

theorem foldl_acc_norm {α : Type} (step : List Call × Bool → α → List Call × Bool)
    (em : α → List Call) (ok : α → Bool)
    (hstep : ∀ acc x, step acc x = (acc.1 ++ em x, acc.2 && ok x)) :
    ∀ (l : List α) (acc : List Call × Bool),
      l.foldl step acc = (acc.1 ++ l.flatMap em, acc.2 && l.all ok) := by
  intro l
  induction l with
  | nil => intro acc; simp
  | cons x xs ih =>
      intro acc
      rw [List.foldl_cons, hstep, ih]
      simp [Bool.and_assoc]

/-- The emitted calls of one `syncStep` iteration. -/
def stepEmit {α : Type} (callOf : α → Option Call) (x : α) : List Call :=
  (callOf x).toList

/-- The outcome contribution of one `syncStep` iteration. -/
def stepOk {α : Type} (fs : Faults) (callOf : α → Option Call) (x : α) : Bool :=
  match callOf x with
  | none => true
  | some c => callSucceeds fs c.op

theorem syncStep_shape {α : Type} (fs : Faults) (callOf : α → Option Call)
    (acc : List Call × Bool) (x : α) :
    syncStep fs callOf acc x = (acc.1 ++ stepEmit callOf x, acc.2 && stepOk fs callOf x) := by
  cases h : callOf x
  · simp [syncStep, stepEmit, stepOk, h]
  · simp [syncStep, stepEmit, stepOk, h]

theorem syncSecretEngines_eq (excl : List String) (fp : Faults) (p : InstanceState)
    (fs : Faults) (h : fp.parseFailEngines = false) :
    syncSecretEngines excl fp p fs =
      ((⟨.primary, .listSecretEngines⟩ : Call) ::
         p.engines.flatMap (stepEmit (engineEnableCallOf excl)),
       p.engines.all (stepOk fs (engineEnableCallOf excl))) := by
  simp only [syncSecretEngines, h, Bool.false_eq_true, if_false]
  rw [foldl_acc_norm _ _ _ (syncStep_shape fs (engineEnableCallOf excl))]
  simp

theorem syncAuthMethods_eq (excl : List String) (fp : Faults) (p : InstanceState)
    (fs : Faults) (h : fp.parseFailAuths = false) :
    syncAuthMethods excl fp p fs =
      ((⟨.primary, .listAuthMethods⟩ : Call) ::
         p.auths.flatMap (stepEmit (authEnableCallOf excl)),
       p.auths.all (stepOk fs (authEnableCallOf excl))) := by
  simp only [syncAuthMethods, h, Bool.false_eq_true, if_false]
  rw [foldl_acc_norm _ _ _ (syncStep_shape fs (authEnableCallOf excl))]
  simp

theorem syncPolicies_eq (fp : Faults) (p : InstanceState) (fs : Faults)
    (h : fp.parseFailPolicies = false) :
    syncPolicies fp p fs =
      ((⟨.primary, .listPolicies⟩ : Call) :: p.policies.flatMap (policyCallsOf fp p),
       p.policies.all (fun n => (policyCallsOf fp p n).all (fun c => callSucceeds fs c.op))) := by
  simp only [syncPolicies, h, Bool.false_eq_true, if_false]
  rw [foldl_acc_norm (policyStep fp p fs) (policyCallsOf fp p)
        (fun n => (policyCallsOf fp p n).all (fun c => callSucceeds fs c.op))
        (fun acc n => rfl)]
  simp

theorem syncSecrets_eq (excl : List String) (fp : Faults) (p : InstanceState)
    (fs : Faults) (h : fp.parseFailEngines = false) :
    syncSecrets excl fp p fs =
      ((⟨.primary, .listSecretEngines⟩ : Call) ::
         p.engines.flatMap (fun e => (mountSyncOf excl fp fs p e).1),
       p.engines.all (fun e => (mountSyncOf excl fp fs p e).2)) := by
  simp only [syncSecrets, h, Bool.false_eq_true, if_false]
  rw [foldl_acc_norm (mountStep excl fp fs p) (fun e => (mountSyncOf excl fp fs p e).1)
        (fun e => (mountSyncOf excl fp fs p e).2) (fun acc x => rfl)]
  simp

/-! ## The secret-tree traversal: leaf enumeration and trace lemmas -/

theorem processLeaf_eq (rf wf : List String) (cur : String) (payload : Payload) :
    processLeaf rf wf cur payload =
      if ¬cur ∈ rf ∧ ¬payload = [] then
        ([⟨.primary, .readSecret cur⟩, ⟨.secondary, .writeSecret cur payload⟩],
         !(decide (cur ∈ wf)))
      else ([⟨.primary, .readSecret cur⟩], true) := by
  unfold processLeaf
  by_cases h : cur ∈ rf
  · simp [h]
  · by_cases h2 : payload = []
    · simp [h, h2]
    · simp [h, h2, List.isEmpty_iff]

mutual

/-- The sequence of leaf paths one traversal of `node` (rooted at
`mountPath`/`subPath`) reads, computed with the same path arithmetic as
`_sync_secrets_recursive`: one entry per reachable leaf, in traversal
order. -/
def leafPathsAux (node : SNode) (mountPath subPath : String) : List String :=
  match node with
  | .leaf _ => []
  | .dir cs =>
      leafPathsChildren cs mountPath subPath (rstripSlash (mountPath ++ "/" ++ subPath))

/-- Leaf paths contributed by a directory's children, in order. -/
def leafPathsChildren (cs : SChildren) (mountPath subPath fullPath : String) :
    List String :=
  match cs with
  | .nil => []
  | .cons name child rest =>
      let head :=
        match child with
        | .dir cs' =>
            leafPathsAux (.dir cs') mountPath (stripSlash (subPath ++ "/" ++ (name ++ "/")))
        | .leaf _ =>
            if strEndsWith name "/" then []
            else [stripSlash (fullPath ++ "/" ++ name)]
      head ++ leafPathsChildren rest mountPath subPath fullPath

end

theorem readSecretPaths_processLeaf (rf wf : List String) (cur : String) (pl : Payload) :
    readSecretPaths (processLeaf rf wf cur pl).1 = [cur] := by
  rw [processLeaf_eq]
  split
  · simp [readSecretPaths]
  · simp [readSecretPaths]

theorem readSecretPaths_ssr_leaf (rf wf : List String) (pl : Payload)
    (mountPath subPath : String) :
    readSecretPaths (syncSecretsRecursive rf wf (.leaf pl) mountPath subPath).1 = [] := by
  simp [syncSecretsRecursive, readSecretPaths]

mutual

/-- One traversal reads exactly the leaf paths below the node, in order. -/
theorem readSecretPaths_ssr (rf wf : List String) (node : SNode)
    (mountPath subPath : String) :
    readSecretPaths (syncSecretsRecursive rf wf node mountPath subPath).1 =
      leafPathsAux node mountPath subPath :=
  match node with
  | .leaf _ => by simp [syncSecretsRecursive, leafPathsAux, readSecretPaths]
  | .dir cs => by
      have ih := readSecretPaths_children rf wf cs mountPath subPath
        (rstripSlash (mountPath ++ "/" ++ subPath))
      simp [syncSecretsRecursive, leafPathsAux, readSecretPaths] at ih ⊢
      exact ih
termination_by sizeOf node

theorem readSecretPaths_children (rf wf : List String) (cs : SChildren)
    (mountPath subPath fullPath : String) :
    readSecretPaths (syncChildren rf wf cs mountPath subPath fullPath).1 =
      leafPathsChildren cs mountPath subPath fullPath :=
  match cs with
  | .nil => by simp [syncChildren, leafPathsChildren, readSecretPaths]
  | .cons name (.dir cs') rest => by
      have ihh := readSecretPaths_ssr rf wf (.dir cs') mountPath
        (stripSlash (subPath ++ "/" ++ (name ++ "/")))
      have iht := readSecretPaths_children rf wf rest mountPath subPath fullPath
      simp only [syncChildren, leafPathsChildren, readSecretPaths_append, ihh, iht]
  | .cons name (.leaf pl) rest => by
      have iht := readSecretPaths_children rf wf rest mountPath subPath fullPath
      by_cases he : strEndsWith name "/" = true
      · simp [syncChildren, leafPathsChildren, he, readSecretPaths_append,
          readSecretPaths_ssr_leaf, iht]
      · simp [syncChildren, leafPathsChildren, he, readSecretPaths_append,
          readSecretPaths_processLeaf, iht]
termination_by sizeOf cs

end

mutual

/-- The calls a traversal issues do not depend on which writes fail: every
remaining item is still attempted after a failure. -/
theorem ssr_trace_wf_indep (rf wf wf' : List String) (node : SNode)
    (mountPath subPath : String) :
    (syncSecretsRecursive rf wf node mountPath subPath).1 =
      (syncSecretsRecursive rf wf' node mountPath subPath).1 :=
  match node with
  | .leaf _ => by simp [syncSecretsRecursive]
  | .dir cs => by
      have ih := children_trace_wf_indep rf wf wf' cs mountPath subPath
        (rstripSlash (mountPath ++ "/" ++ subPath))
      simp [syncSecretsRecursive, ih]
termination_by sizeOf node

theorem children_trace_wf_indep (rf wf wf' : List String) (cs : SChildren)
    (mountPath subPath fullPath : String) :
    (syncChildren rf wf cs mountPath subPath fullPath).1 =
      (syncChildren rf wf' cs mountPath subPath fullPath).1 :=
  match cs with
  | .nil => by simp [syncChildren]
  | .cons name (.dir cs') rest => by
      have ihh := ssr_trace_wf_indep rf wf wf' (.dir cs') mountPath
        (stripSlash (subPath ++ "/" ++ (name ++ "/")))
      have iht := children_trace_wf_indep rf wf wf' rest mountPath subPath fullPath
      simp only [syncChildren, ihh, iht]
  | .cons name (.leaf pl) rest => by
      have iht := children_trace_wf_indep rf wf wf' rest mountPath subPath fullPath
      by_cases he : strEndsWith name "/" = true
      · simp [syncChildren, he, syncSecretsRecursive, iht]
      · simp only [syncChildren, he, if_false, Bool.false_eq_true, iht, processLeaf_eq]
        split
        · simp
        · simp
termination_by sizeOf cs

end

mutual

/-- The boolean a traversal returns is the conjunction of the outcomes of
the calls it issued: true iff every attempted write succeeded. -/
theorem ssr_ok_iff_calls (fs : Faults) (rf : List String) (node : SNode)
    (mountPath subPath : String) :
    (syncSecretsRecursive rf fs.writeSecretFails node mountPath subPath).2 =
      ((syncSecretsRecursive rf fs.writeSecretFails node mountPath subPath).1).all
        (fun c => callSucceeds fs c.op) :=
  match node with
  | .leaf _ => by simp [syncSecretsRecursive, callSucceeds]
  | .dir cs => by
      have ih := children_ok_iff_calls fs rf cs mountPath subPath
        (rstripSlash (mountPath ++ "/" ++ subPath))
      simp [syncSecretsRecursive, callSucceeds, ih]
termination_by sizeOf node

theorem children_ok_iff_calls (fs : Faults) (rf : List String) (cs : SChildren)
    (mountPath subPath fullPath : String) :
    (syncChildren rf fs.writeSecretFails cs mountPath subPath fullPath).2 =
      ((syncChildren rf fs.writeSecretFails cs mountPath subPath fullPath).1).all
        (fun c => callSucceeds fs c.op) :=
  match cs with
  | .nil => by simp [syncChildren]
  | .cons name (.dir cs') rest => by
      have ihh := ssr_ok_iff_calls fs rf (.dir cs') mountPath
        (stripSlash (subPath ++ "/" ++ (name ++ "/")))
      have iht := children_ok_iff_calls fs rf rest mountPath subPath fullPath
      simp only [syncChildren, ihh, iht, List.all_append]
  | .cons name (.leaf pl) rest => by
      have iht := children_ok_iff_calls fs rf rest mountPath subPath fullPath
      by_cases he : strEndsWith name "/" = true
      · simp [syncChildren, he, syncSecretsRecursive, iht, callSucceeds]
      · simp only [syncChildren, he, if_false, Bool.false_eq_true, processLeaf_eq]
        split
        · simp [iht, callSucceeds]
        · simp [iht, callSucceeds]
termination_by sizeOf cs

end

mutual

/-- Every call of a traversal is harmless towards the primary: listing and
reading target the primary without mutating it, writes target the secondary. -/
theorem ssr_primOk (rf wf : List String) (node : SNode)
    (mountPath subPath : String) :
    ((syncSecretsRecursive rf wf node mountPath subPath).1).all primOk = true :=
  match node with
  | .leaf _ => by simp [syncSecretsRecursive, primOk, CallOp.isMutating]
  | .dir cs => by
      have ih := children_primOk rf wf cs mountPath subPath
        (rstripSlash (mountPath ++ "/" ++ subPath))
      simp [syncSecretsRecursive, primOk, CallOp.isMutating, ih]
termination_by sizeOf node

theorem children_primOk (rf wf : List String) (cs : SChildren)
    (mountPath subPath fullPath : String) :
    ((syncChildren rf wf cs mountPath subPath fullPath).1).all primOk = true :=
  match cs with
  | .nil => by simp [syncChildren]
  | .cons name (.dir cs') rest => by
      have ihh := ssr_primOk rf wf (.dir cs') mountPath
        (stripSlash (subPath ++ "/" ++ (name ++ "/")))
      have iht := children_primOk rf wf rest mountPath subPath fullPath
      simp only [syncChildren, List.all_append, ihh, iht, Bool.and_self]
  | .cons name (.leaf pl) rest => by
      have iht := children_primOk rf wf rest mountPath subPath fullPath
      by_cases he : strEndsWith name "/" = true
      · simp [syncChildren, he, syncSecretsRecursive, iht, primOk, CallOp.isMutating]
      · simp only [syncChildren, he, if_false, Bool.false_eq_true, processLeaf_eq]
        split
        · simp [iht, primOk, CallOp.isMutating]
        · simp [iht, primOk, CallOp.isMutating]
termination_by sizeOf cs

end

/-! ## Effect lemmas -/

/-- Non-mutating operations never change instance state. -/
theorem applyOp_nonmutating (f : Faults) (st : InstanceState) (op : CallOp)
    (h : op.isMutating = false) : applyOp f st op = st := by
  cases op
  all_goals first
    | rfl
    | exact absurd h (by simp [CallOp.isMutating])

/-- If every call of a trace is harmless towards the primary, folding the
trace over the world leaves the primary state unchanged. -/
theorem applyCalls_fst_of_primOk (fp fs : Faults) :
    ∀ (cs : List Call) (w : InstanceState × InstanceState),
      cs.all primOk = true → (applyCalls fp fs w cs).1 = w.1 := by
  intro cs
  induction cs with
  | nil => intro w _; rfl
  | cons c rest ih =>
      intro w h
      simp only [List.all_cons, Bool.and_eq_true] at h
      have hstep : (applyCall fp fs w c).1 = w.1 := by
        have hc := h.1
        unfold primOk at hc
        unfold applyCall
        cases ht : c.target
        · rw [ht] at hc
          simp only [Bool.or_eq_true, beq_iff_eq, Bool.not_eq_true'] at hc
          rcases hc with hc | hc
          · exact absurd hc (by intro hx; cases hx)
          · simp only []
            exact congrArg Prod.fst (congrArg (fun x => (x, w.2)) (applyOp_nonmutating fp w.1 c.op hc))
        · rfl
      have : applyCalls fp fs w (c :: rest) = applyCalls fp fs (applyCall fp fs w c) rest := rfl
      rw [this, ih (applyCall fp fs w c) h.2, hstep]

/-- Unfolding one step of `applySecondary`. -/
theorem applySecondary_cons (f : Faults) (st : InstanceState) (c : Call) (cs : List Call) :
    applySecondary f st (c :: cs) =
      applySecondary f (if c.target == Target.secondary then applyOp f st c.op else st) cs := rfl

theorem applySecondary_append (f : Faults) (st : InstanceState) (a b : List Call) :
    applySecondary f st (a ++ b) = applySecondary f (applySecondary f st a) b := by
  unfold applySecondary
  exact List.foldl_append _ _ _ _

/-- Disabling a list of engine paths (all disables succeeding) filters the
engine table down to the entries whose stripped path is not among them. -/
theorem applySecondary_engineDisables (f : Faults) (hdf : f.disableEngineFails = []) :
    ∀ (ds : List String) (st : InstanceState),
      applySecondary f st (ds.map (fun p => (⟨.secondary, .disableSecretEngine p⟩ : Call))) =
        { st with engines :=
            st.engines.filter (fun e => !(ds.any (fun d => rstripSlash e.1 == d))) } := by
  intro ds
  induction ds with
  | nil => intro st; simp [applySecondary]
  | cons d ds ih =>
      intro st
      rw [List.map_cons, applySecondary_cons]
      simp only [beq_self_eq_true, if_true]
      have hop : applyOp f st (.disableSecretEngine d) =
          { st with engines := st.engines.filter (fun e => !(rstripSlash e.1 == d)) } := by
        unfold applyOp callSucceeds
        rw [hdf]
        simp
      rw [hop, ih]
      simp only [List.filter_filter]
      congr 1
      exact List.filter_congr (fun e _ => by
        simp [List.any_cons, Bool.not_or, Bool.and_comm])

/-- Disabling a list of auth paths filters the auth table analogously. -/
theorem applySecondary_authDisables (f : Faults) (hdf : f.disableAuthFails = []) :
    ∀ (ds : List String) (st : InstanceState),
      applySecondary f st (ds.map (fun p => (⟨.secondary, .disableAuthMethod p⟩ : Call))) =
        { st with auths :=
            st.auths.filter (fun a => !(ds.any (fun d => rstripSlash a.1 == d))) } := by
  intro ds
  induction ds with
  | nil => intro st; simp [applySecondary]
  | cons d ds ih =>
      intro st
      rw [List.map_cons, applySecondary_cons]
      simp only [beq_self_eq_true, if_true]
      have hop : applyOp f st (.disableAuthMethod d) =
          { st with auths := st.auths.filter (fun a => !(rstripSlash a.1 == d)) } := by
        unfold applyOp callSucceeds
        rw [hdf]
        simp
      rw [hop, ih]
      simp only [List.filter_filter]
      congr 1
      exact List.filter_congr (fun a _ => by
        simp [List.any_cons, Bool.not_or, Bool.and_comm])

/-- Deleting a list of policy names filters the policy list (and the stored
documents) analogously. -/
theorem applySecondary_policyDeletes (f : Faults) (hdf : f.deletePolicyFails = []) :
    ∀ (ns : List String) (st : InstanceState),
      applySecondary f st (ns.map (fun n => (⟨.secondary, .deletePolicy n⟩ : Call))) =
        { st with
            policies := st.policies.filter (fun m => !(ns.any (fun n => m == n))),
            policyDocs := st.policyDocs.filter (fun d2 => !(ns.any (fun n => d2.1 == n))) } := by
  intro ns
  induction ns with
  | nil => intro st; simp [applySecondary]
  | cons n ns ih =>
      intro st
      rw [List.map_cons, applySecondary_cons]
      simp only [beq_self_eq_true, if_true]
      have hop : applyOp f st (.deletePolicy n) =
          { st with
              policies := st.policies.filter (fun m => !(m == n)),
              policyDocs := st.policyDocs.filter (fun d2 => !(d2.1 == n)) } := by
        unfold applyOp callSucceeds
        rw [hdf]
        simp
      rw [hop, ih]
      simp only [List.filter_filter]
      congr 1
      · exact List.filter_congr (fun m _ => by
          simp [List.any_cons, Bool.not_or, Bool.and_comm])
      · exact List.filter_congr (fun d2 _ => by
          simp [List.any_cons, Bool.not_or, Bool.and_comm])

/-! ## Classification of the calls each phase issues -/

/-- An enable call derived by `_sync_secret_engines` proves its source entry
passed every skip test, and records exactly that entry's data. -/
theorem engineEnableCallOf_spec (excl : List String) (e : String × MountConfig)
    (c : Call) (h : engineEnableCallOf excl e = some c) :
    shouldExcludePath excl e.1 = false ∧
    strStartsWith e.1 "sys/" = false ∧ strStartsWith e.1 "identity/" = false ∧
    ∃ t, e.2.type = some t ∧ t.isEmpty = false ∧
      c = ⟨.secondary,
        .enableSecretEngine (rstripSlash e.1) t e.2.description e.2.config e.2.options⟩ := by
  unfold engineEnableCallOf at h
  split at h
  · exact absurd h (by simp)
  · rename_i hexcl
    split at h
    · exact absurd h (by simp)
    · rename_i hsys
      split at h
      · exact absurd h (by simp)
      · rename_i t hty
        split at h
        · exact absurd h (by simp)
        · rename_i hne
          have hexcl' := Bool.eq_false_iff.mpr hexcl
          have hsys' := Bool.or_eq_false_iff.mp (Bool.eq_false_iff.mpr hsys)
          refine ⟨hexcl', hsys'.1, hsys'.2, t, hty, Bool.eq_false_iff.mpr hne, ?_⟩
          exact (Option.some_inj.mp h).symm

/-- An enable call derived by `_sync_auth_methods` proves its source entry
passed every skip test (note: only the exact path `token/` is protected). -/
theorem authEnableCallOf_spec (excl : List String) (a : String × MountConfig)
    (c : Call) (h : authEnableCallOf excl a = some c) :
    shouldExcludePath excl a.1 = false ∧
    ¬(a.1 = "token/") ∧
    ∃ t, a.2.type = some t ∧ t.isEmpty = false ∧
      c = ⟨.secondary,
        .enableAuthMethod (rstripSlash a.1) t a.2.description a.2.config⟩ := by
  unfold authEnableCallOf at h
  split at h
  · exact absurd h (by simp)
  · rename_i hexcl
    split at h
    · exact absurd h (by simp)
    · rename_i htok
      split at h
      · exact absurd h (by simp)
      · rename_i t hty
        split at h
        · exact absurd h (by simp)
        · rename_i hne
          have hexcl' := Bool.eq_false_iff.mpr hexcl
          have htok' := beq_eq_false_iff_ne.mp (Bool.eq_false_iff.mpr htok)
          refine ⟨hexcl', htok', t, hty, Bool.eq_false_iff.mpr hne, ?_⟩
          exact (Option.some_inj.mp h).symm

/-- Every call `_sync_policies` issues for a listed name concerns a
non-reserved name, and is either the primary read or the secondary write of
the document the read returned. -/
theorem policyCallsOf_mem (fp : Faults) (p : InstanceState) (n : String)
    (c : Call) (hc : c ∈ policyCallsOf fp p n) :
    (¬(n = "root") ∧ ¬(n = "default")) ∧
    (c = ⟨.primary, .readPolicy n⟩ ∨
      ∃ doc, readPolicyResult fp p n = some doc ∧ c = ⟨.secondary, .writePolicy n doc⟩) := by
  unfold policyCallsOf at hc
  split at hc
  · exact absurd hc (by simp)
  · rename_i hres
    simp only [Bool.or_eq_true, not_or, beq_iff_eq] at hres
    split at hc
    · refine ⟨hres, ?_⟩
      simp only [List.mem_singleton] at hc
      exact Or.inl hc
    · rename_i doc hdoc
      refine ⟨hres, ?_⟩
      simp only [List.mem_cons, List.mem_singleton] at hc
      rcases hc with hc | hc | hc
      · exact Or.inl hc
      · exact Or.inr ⟨doc, hdoc, hc⟩
      · exact absurd hc (by simp)

/-! ## Every phase is read-only towards the primary -/

theorem healthCheckSeq_primOk (p s : InstanceState) :
    ((healthCheckSeq p s).1).all primOk = true := by
  unfold healthCheckSeq
  split
  · simp [primOk, CallOp.isMutating]
  · split
    · simp [primOk, CallOp.isMutating]
    · simp [primOk, CallOp.isMutating]

theorem clearSecondary_targets (f : Faults) (s : InstanceState) :
    ∀ c ∈ (clearSecondary f s).1, c.target = Target.secondary := by
  intro c hc
  unfold clearSecondary at hc
  split at hc
  · simp only [List.mem_singleton] at hc
    rw [hc]
  · split at hc
    · simp only [List.mem_append, List.mem_singleton, List.mem_map] at hc
      rcases hc with (hc | ⟨_, _, hc⟩) | hc
      · rw [hc]
      · rw [← hc]
      · rw [hc]
    · split at hc
      · simp only [List.mem_append, List.mem_singleton, List.mem_map] at hc
        rcases hc with (((hc | ⟨_, _, hc⟩) | hc) | ⟨_, _, hc⟩) | hc
        · rw [hc]
        · rw [← hc]
        · rw [hc]
        · rw [← hc]
        · rw [hc]
      · simp only [List.mem_append, List.mem_singleton, List.mem_map] at hc
        rcases hc with ((((hc | ⟨_, _, hc⟩) | hc) | ⟨_, _, hc⟩) | hc) | ⟨_, _, hc⟩
        · rw [hc]
        · rw [← hc]
        · rw [hc]
        · rw [← hc]
        · rw [hc]
        · rw [← hc]

theorem clearSecondary_primOk (f : Faults) (s : InstanceState) :
    ((clearSecondary f s).1).all primOk = true := by
  rw [List.all_eq_true]
  intro c hc
  unfold primOk
  rw [clearSecondary_targets f s c hc]
  simp

theorem syncSecretEngines_primOk (excl : List String) (fp : Faults)
    (p : InstanceState) (fs : Faults) :
    ((syncSecretEngines excl fp p fs).1).all primOk = true := by
  unfold syncSecretEngines
  split
  · simp [primOk, CallOp.isMutating]
  · rw [foldl_acc_norm _ _ _ (syncStep_shape fs (engineEnableCallOf excl))]
    simp only [List.all_eq_true]
    intro c hc
    simp only [List.mem_append, List.mem_singleton, List.mem_flatMap] at hc
    rcases hc with hc | ⟨x, _, hcx⟩
    · rw [hc]; rfl
    · unfold stepEmit at hcx
      cases h : engineEnableCallOf excl x with
      | none => rw [h] at hcx; exact absurd hcx (by simp)
      | some c' =>
          rw [h] at hcx
          simp only [Option.toList_some, List.mem_singleton] at hcx
          obtain ⟨_, _, _, _, _, _, hceq⟩ := engineEnableCallOf_spec excl x c' h
          rw [hcx, hceq]; rfl

theorem syncAuthMethods_primOk (excl : List String) (fp : Faults)
    (p : InstanceState) (fs : Faults) :
    ((syncAuthMethods excl fp p fs).1).all primOk = true := by
  unfold syncAuthMethods
  split
  · simp [primOk, CallOp.isMutating]
  · rw [foldl_acc_norm _ _ _ (syncStep_shape fs (authEnableCallOf excl))]
    simp only [List.all_eq_true]
    intro c hc
    simp only [List.mem_append, List.mem_singleton, List.mem_flatMap] at hc
    rcases hc with hc | ⟨x, _, hcx⟩
    · rw [hc]; rfl
    · unfold stepEmit at hcx
      cases h : authEnableCallOf excl x with
      | none => rw [h] at hcx; exact absurd hcx (by simp)
      | some c' =>
          rw [h] at hcx
          simp only [Option.toList_some, List.mem_singleton] at hcx
          obtain ⟨_, _, _, _, _, hceq⟩ := authEnableCallOf_spec excl x c' h
          rw [hcx, hceq]; rfl

theorem syncPolicies_primOk (fp : Faults) (p : InstanceState) (fs : Faults) :
    ((syncPolicies fp p fs).1).all primOk = true := by
  unfold syncPolicies
  split
  · simp [primOk, CallOp.isMutating]
  · rw [foldl_acc_norm (policyStep fp p fs) (policyCallsOf fp p)
        (fun n => (policyCallsOf fp p n).all (fun c => callSucceeds fs c.op))
        (fun acc n => rfl)]
    simp only [List.all_eq_true]
    intro c hc
    simp only [List.mem_append, List.mem_singleton, List.mem_flatMap] at hc
    rcases hc with hc | ⟨x, _, hcx⟩
    · rw [hc]; rfl
    · obtain ⟨_, hor⟩ := policyCallsOf_mem fp p x c hcx
      rcases hor with hc | ⟨doc, _, hc⟩
      · rw [hc]; rfl
      · rw [hc]; rfl

theorem syncSecrets_primOk (excl : List String) (fp : Faults) (p : InstanceState)
    (fs : Faults) :
    ((syncSecrets excl fp p fs).1).all primOk = true := by
  unfold syncSecrets
  split
  · simp [primOk, CallOp.isMutating]
  · rw [foldl_acc_norm (mountStep excl fp fs p) (fun e => (mountSyncOf excl fp fs p e).1)
        (fun e => (mountSyncOf excl fp fs p e).2) (fun acc x => rfl)]
    simp only [List.all_eq_true]
    intro c hc
    simp only [List.mem_append, List.mem_singleton, List.mem_flatMap] at hc
    rcases hc with hc | ⟨x, _, hcx⟩
    · rw [hc]; rfl
    · unfold mountSyncOf at hcx
      split at hcx
      · exact absurd hcx (by simp)
      · split at hcx
        · exact absurd hcx (by simp)
        · have := ssr_primOk fp.readSecretFails fs.writeSecretFails
            (mountTree p (rstripSlash x.1)) (rstripSlash x.1) ""
          rw [List.all_eq_true] at this
          exact this c hcx

theorem fullSync_all_primOk (excl : List String) (fp : Faults) (p : InstanceState)
    (fs : Faults) (s : InstanceState) :
    ((fullSync excl fp p fs s).1).all primOk = true := by
  unfold fullSync
  dsimp only
  split
  · exact healthCheckSeq_primOk p s
  · split
    · simp only [List.all_append]
      rw [healthCheckSeq_primOk p s, clearSecondary_primOk fs s]
      rfl
    · simp only [List.all_append]
      rw [healthCheckSeq_primOk p s, clearSecondary_primOk fs s,
        syncSecretEngines_primOk excl fp p fs, syncAuthMethods_primOk excl fp p fs,
        syncPolicies_primOk fp p fs, syncSecrets_primOk excl fp p fs]
      rfl

/-! ## Concrete fixtures for witnesses and counterexamples -/

/-- A kv secret-engine listing entry. -/
def kvConfig : MountConfig := ⟨some "kv", "key value store", [], []⟩

/-- A userpass auth-method listing entry. -/
def userpassConfig : MountConfig := ⟨some "userpass", "", [], []⟩

/-- Example primary instance: one kv mount holding a two-level secret tree,
one auth method, one custom policy. -/
def primEx : InstanceState :=
  { healthy := true
    engines := [("secret/", kvConfig)]
    auths := [("userpass/", userpassConfig)]
    policies := ["root", "mypolicy"]
    policyDocs := [("mypolicy", "path secret read")]
    secrets := [("secret",
      .dir (.cons "a" (.leaf [("k", "v")])
        (.cons "b" (.dir (.cons "c" (.leaf [("x", "y")]) .nil)) .nil)))]
    kvWrites := [] }

/-- Example secondary instance with stale state to be reset. -/
def secEx : InstanceState :=
  { healthy := true
    engines := [("old/", kvConfig), ("sys/", ⟨some "system", "", [], []⟩)]
    auths := [("token/", ⟨some "token", "", [], []⟩), ("ldap/", ⟨some "ldap", "", [], []⟩)]
    policies := ["root", "default", "stale"]
    policyDocs := [("stale", "path old read")]
    secrets := []
    kvWrites := [] }

/-- Example primary whose health check fails. -/
def primBad : InstanceState := { primEx with healthy := false }

/-- Secondary faults making the enable of the `secret` engine fail. -/
def fsEngineFail : Faults := { noFaults with enableEngineFails := ["secret"] }

/-! ## Helper facts about `healthCheckSeq` and `clearSecondary` -/

theorem healthCheckSeq_ok_iff (p s : InstanceState) :
    (healthCheckSeq p s).2 = true ↔ (p.healthy = true ∧ s.healthy = true) := by
  unfold healthCheckSeq
  by_cases h1 : p.healthy
  · by_cases h2 : s.healthy
    · simp [h1, h2]
    · simp [h1, h2]
  · simp [h1]

theorem healthCheckSeq_calls_nonmut (p s : InstanceState) :
    ∀ c ∈ (healthCheckSeq p s).1, c.op.isMutating = false := by
  intro c hc
  unfold healthCheckSeq at hc
  split at hc
  · simp only [List.mem_singleton] at hc
    rw [hc]; rfl
  · split at hc
    · simp only [List.mem_cons, List.mem_singleton] at hc
      rcases hc with hc | hc | hc
      · rw [hc]; rfl
      · rw [hc]; rfl
      · exact absurd hc (by simp)
    · simp only [List.mem_cons, List.mem_singleton] at hc
      rcases hc with hc | hc | hc
      · rw [hc]; rfl
      · rw [hc]; rfl
      · exact absurd hc (by simp)

theorem clearSecondary_ok_iff (f : Faults) (s : InstanceState) :
    (clearSecondary f s).2 = true ↔
      (f.parseFailEngines = false ∧ f.parseFailAuths = false ∧
       f.parseFailPolicies = false) := by
  unfold clearSecondary
  by_cases h1 : f.parseFailEngines
  · simp [h1]
  · by_cases h2 : f.parseFailAuths
    · simp [h1, h2]
    · by_cases h3 : f.parseFailPolicies
      · simp [h1, h2, h3]
      · simp [h1, h2, h3]

theorem clearSecondary_calls_eq (f : Faults) (s : InstanceState)
    (h1 : f.parseFailEngines = false) (h2 : f.parseFailAuths = false)
    (h3 : f.parseFailPolicies = false) :
    (clearSecondary f s).1 =
      [(⟨Target.secondary, CallOp.listSecretEngines⟩ : Call)] ++
        (resetEnginePaths s).map (fun p => ⟨Target.secondary, CallOp.disableSecretEngine p⟩) ++
      [(⟨Target.secondary, CallOp.listAuthMethods⟩ : Call)] ++
        (resetAuthPaths s).map (fun p => ⟨Target.secondary, CallOp.disableAuthMethod p⟩) ++
      [(⟨Target.secondary, CallOp.listPolicies⟩ : Call)] ++
        (resetPolicyNames s).map (fun n => ⟨Target.secondary, CallOp.deletePolicy n⟩) := by
  unfold clearSecondary
  rw [h1, h2, h3]
  rfl

/-! ## C1 -/

/-- Claim C1: `should_exclude_path(P)` over exclusion set `E` returns true iff `P`
starts (by pure character-wise prefix match) with some member of `E`; in
particular it returns false for every `P` when `E` is empty. -/
theorem shouldExcludePath_iff_prefix_member (E : List String) (P : String) :
    (shouldExcludePath E P = true ↔ ∃ e ∈ E, e.data <+: P.data) ∧
    shouldExcludePath [] P = false := by
  constructor
  · unfold shouldExcludePath
    rw [List.any_eq_true]
    constructor
    · rintro ⟨e, he, hpre⟩
      exact ⟨e, he, (strStartsWith_iff P e).mp hpre⟩
    · rintro ⟨e, he, hpre⟩
      exact ⟨e, he, (strStartsWith_iff P e).mpr hpre⟩
  · rfl

/-! ## C10 -/

/-- Claim C10: a leaf whose primary read returns an empty mapping is treated exactly
like an absent secret: only the read call is issued, nothing is written for
that path, and the branch's success result is unaffected (true). -/
theorem processLeaf_empty_like_absent (rf wf : List String) (cur : String) :
    processLeaf rf wf cur [] = ([⟨Target.primary, CallOp.readSecret cur⟩], true) ∧
    (∀ payload, processLeaf (cur :: rf) wf cur payload = processLeaf rf wf cur []) ∧
    writeSecretPaths (processLeaf rf wf cur []).1 = [] := by
  refine ⟨?_, ?_, ?_⟩
  · rw [processLeaf_eq]
    simp
  · intro payload
    rw [processLeaf_eq, processLeaf_eq]
    simp
  · rw [processLeaf_eq]
    simp [writeSecretPaths]

/-! ## C3 -/

/-- Claim C3: if either health check fails, `full_sync` returns false and issues no
mutating call at all; if the health checks pass but the reset fails,
`full_sync` returns false and its trace stops at the reset — none of the four
replication phases runs. -/
theorem fullSync_short_circuit (excl : List String) (fp : Faults)
    (p : InstanceState) (fs : Faults) (s : InstanceState) :
    ((p.healthy = false ∨ s.healthy = false) →
      (fullSync excl fp p fs s).2 = false ∧
      ∀ c ∈ (fullSync excl fp p fs s).1, c.op.isMutating = false) ∧
    ((healthCheckSeq p s).2 = true → (clearSecondary fs s).2 = false →
      (fullSync excl fp p fs s).2 = false ∧
      (fullSync excl fp p fs s).1 = (healthCheckSeq p s).1 ++ (clearSecondary fs s).1) := by
  constructor
  · intro h
    have hh : (healthCheckSeq p s).2 = false := by
      rw [Bool.eq_false_iff]
      intro hx
      have hboth := (healthCheckSeq_ok_iff p s).mp hx
      rcases h with h | h
      · rw [h] at hboth; exact absurd hboth.1 (by simp)
      · rw [h] at hboth; exact absurd hboth.2 (by simp)
    constructor
    · unfold fullSync
      dsimp only
      rw [hh]
      simp
    · intro c hc
      unfold fullSync at hc
      dsimp only at hc
      rw [hh] at hc
      simp only [Bool.not_false, if_true] at hc
      exact healthCheckSeq_calls_nonmut p s c hc
  · intro hhp hr
    unfold fullSync
    dsimp only
    rw [hhp, hr]
    simp

/-- Witness for C3: with an unhealthy primary, `full_sync` returns false and
no mutating call appears in its trace. -/
theorem fullSync_short_circuit_witness :
    (fullSync [] noFaults primBad noFaults secEx).2 = false ∧
    ∀ c ∈ (fullSync [] noFaults primBad noFaults secEx).1, c.op.isMutating = false :=
  (fullSync_short_circuit [] noFaults primBad noFaults secEx).1 (Or.inl rfl)

/-! ## C4 -/

/-- Claim C4: once health checks and reset succeed, all four replication phases run
in order — engines, auth methods, policies, secrets — regardless of the
phases' own outcomes, and `full_sync` returns the AND of the four phase
results. -/
theorem fullSync_runs_all_phases (excl : List String) (fp : Faults)
    (p : InstanceState) (fs : Faults) (s : InstanceState)
    (h1 : (healthCheckSeq p s).2 = true) (h2 : (clearSecondary fs s).2 = true) :
    (fullSync excl fp p fs s).1 =
      (healthCheckSeq p s).1 ++ (clearSecondary fs s).1 ++
      (syncSecretEngines excl fp p fs).1 ++ (syncAuthMethods excl fp p fs).1 ++
      (syncPolicies fp p fs).1 ++ (syncSecrets excl fp p fs).1 ∧
    (fullSync excl fp p fs s).2 =
      ((syncSecretEngines excl fp p fs).2 && (syncAuthMethods excl fp p fs).2 &&
       (syncPolicies fp p fs).2 && (syncSecrets excl fp p fs).2) := by
  unfold fullSync
  dsimp only
  rw [h1, h2]
  simp

/-- Witness for C4: concrete healthy instances whose engine-enable fails on
the secondary; the phases still all appear in the trace and the result is the
four-way AND. -/
theorem fullSync_runs_all_phases_witness :
    (healthCheckSeq primEx secEx).2 = true ∧
    (clearSecondary fsEngineFail secEx).2 = true ∧
    ((fullSync [] noFaults primEx fsEngineFail secEx).1 =
      (healthCheckSeq primEx secEx).1 ++ (clearSecondary fsEngineFail secEx).1 ++
      (syncSecretEngines [] noFaults primEx fsEngineFail).1 ++
      (syncAuthMethods [] noFaults primEx fsEngineFail).1 ++
      (syncPolicies noFaults primEx fsEngineFail).1 ++
      (syncSecrets [] noFaults primEx fsEngineFail).1 ∧
    (fullSync [] noFaults primEx fsEngineFail secEx).2 =
      ((syncSecretEngines [] noFaults primEx fsEngineFail).2 &&
       (syncAuthMethods [] noFaults primEx fsEngineFail).2 &&
       (syncPolicies noFaults primEx fsEngineFail).2 &&
       (syncSecrets [] noFaults primEx fsEngineFail).2)) :=
  ⟨by decide, by decide,
   fullSync_runs_all_phases [] noFaults primEx fsEngineFail secEx (by decide) (by decide)⟩

/-! ## C9 -/

/-- Claim C9: a `full_sync` pass only ever reads from the primary — every mutating
call in its trace targets the secondary, every primary-targeted call is
non-mutating, and replaying the trace over the world leaves the primary state
unchanged. -/
theorem fullSync_primary_readonly (excl : List String) (fp : Faults)
    (p : InstanceState) (fs : Faults) (s : InstanceState) :
    (∀ c ∈ (fullSync excl fp p fs s).1, c.op.isMutating = true →
        c.target = Target.secondary) ∧
    (∀ c ∈ (fullSync excl fp p fs s).1, c.target = Target.primary →
        c.op.isMutating = false) ∧
    (applyCalls fp fs (p, s) (fullSync excl fp p fs s).1).1 = p := by
  have hall := fullSync_all_primOk excl fp p fs s
  rw [List.all_eq_true] at hall
  refine ⟨?_, ?_, ?_⟩
  · intro c hc hm
    have hp := hall c hc
    unfold primOk at hp
    cases ht : c.target
    · rw [ht, hm] at hp
      exact absurd hp (by simp)
    · rfl
  · intro c hc ht
    have hp := hall c hc
    unfold primOk at hp
    rw [ht] at hp
    simpa using hp
  · exact applyCalls_fst_of_primOk fp fs _ (p, s) (fullSync_all_primOk excl fp p fs s)

/-- Witness for C9: on the concrete example pass, replaying the full trace
leaves the primary state literally unchanged. -/
theorem fullSync_primary_readonly_witness :
    (applyCalls noFaults noFaults (primEx, secEx)
        (fullSync [] noFaults primEx noFaults secEx).1).1 = primEx :=
  (fullSync_primary_readonly [] noFaults primEx noFaults secEx).2.2

/-! ## C2 -/

/-- Both conjuncts of a conjunction of negated booleans. -/
theorem band_not_not_true {a b : Bool} (h : (!a && !b) = true) :
    a = false ∧ b = false := by
  cases a
  · cases b
    · exact ⟨rfl, rfl⟩
    · exact absurd h (by simp)
  · exact absurd h (by simp)

theorem resetEnginePaths_mem (s : InstanceState) (q : String) :
    q ∈ resetEnginePaths s ↔
      ∃ e ∈ s.engines, strStartsWith e.1 "sys/" = false ∧
        strStartsWith e.1 "identity/" = false ∧ q = rstripSlash e.1 := by
  unfold resetEnginePaths
  rw [List.mem_filterMap]
  constructor
  · rintro ⟨e, he, hq⟩
    split at hq
    · rename_i hcond
      obtain ⟨hs, hi⟩ := band_not_not_true hcond
      exact ⟨e, he, hs, hi, (Option.some_inj.mp hq).symm⟩
    · exact absurd hq (by simp)
  · rintro ⟨e, he, hs, hi, hq⟩
    refine ⟨e, he, ?_⟩
    rw [if_pos (by rw [hs, hi]; rfl), hq]

theorem resetAuthPaths_mem (s : InstanceState) (q : String) :
    q ∈ resetAuthPaths s ↔
      ∃ a ∈ s.auths, ¬(a.1 = "token/") ∧ strStartsWith a.1 "sys/" = false ∧
        q = rstripSlash a.1 := by
  unfold resetAuthPaths
  rw [List.mem_filterMap]
  constructor
  · rintro ⟨a, ha, hq⟩
    split at hq
    · rename_i hcond
      obtain ⟨ht, hs⟩ := band_not_not_true hcond
      exact ⟨a, ha, beq_eq_false_iff_ne.mp ht, hs, (Option.some_inj.mp hq).symm⟩
    · exact absurd hq (by simp)
  · rintro ⟨a, ha, ht, hs, hq⟩
    refine ⟨a, ha, ?_⟩
    rw [if_pos (by rw [hs, beq_eq_false_iff_ne.mpr ht]; rfl), hq]

theorem resetPolicyNames_mem (s : InstanceState) (n : String) :
    n ∈ resetPolicyNames s ↔
      n ∈ s.policies ∧ ¬(n = "root") ∧ ¬(n = "default") := by
  unfold resetPolicyNames
  rw [List.mem_filter]
  constructor
  · rintro ⟨hmem, hcond⟩
    obtain ⟨h1, h2⟩ := band_not_not_true hcond
    exact ⟨hmem, beq_eq_false_iff_ne.mp h1, beq_eq_false_iff_ne.mp h2⟩
  · rintro ⟨hmem, h1, h2⟩
    refine ⟨hmem, ?_⟩
    rw [beq_eq_false_iff_ne.mpr h1, beq_eq_false_iff_ne.mpr h2]
    rfl

/-- Secondary instance holding a user engine that the exclusion set of the
counterexample names. -/
def secC2 : InstanceState :=
  { healthy := true
    engines := [("myengine/", kvConfig)]
    auths := []
    policies := []
    policyDocs := []
    secrets := []
    kvWrites := [] }

/-- Counterexample to C2: with exclusion set `["myengine/"]` the path
`myengine/` is excluded from copying, yet the reset pass still issues a
disable call for it — `_clear_secondary` never consults
`should_exclude_path`. -/
theorem clearSecondary_disables_excluded_path :
    shouldExcludePath ["myengine/"] "myengine/" = true ∧
    (⟨Target.secondary, CallOp.disableSecretEngine "myengine"⟩ : Call) ∈
      (clearSecondary noFaults secC2).1 ∧
    (clearSecondary noFaults secC2).2 = true := by decide

/-- Claim C2 (amended): the reset pass protects exactly the hard-coded system
objects and nothing else.  Every listed engine that is not `sys/`- or
`identity/`-prefixed is disabled (whatever the exclusion set — it is not a
parameter of the reset), likewise every auth method other than `token/` and
`sys/`-prefixed ones, and every policy other than `root`/`default`; and no
disable call ever names a `sys/`- or `identity/`-prefixed engine. -/
theorem clearSecondary_protects_only_system (f : Faults) (s : InstanceState)
    (h1 : f.parseFailEngines = false) (h2 : f.parseFailAuths = false)
    (h3 : f.parseFailPolicies = false) :
    (∀ e ∈ s.engines, strStartsWith e.1 "sys/" = false →
        strStartsWith e.1 "identity/" = false →
        (⟨Target.secondary, CallOp.disableSecretEngine (rstripSlash e.1)⟩ : Call) ∈
          (clearSecondary f s).1) ∧
    (∀ a ∈ s.auths, ¬(a.1 = "token/") → strStartsWith a.1 "sys/" = false →
        (⟨Target.secondary, CallOp.disableAuthMethod (rstripSlash a.1)⟩ : Call) ∈
          (clearSecondary f s).1) ∧
    (∀ n ∈ s.policies, ¬(n = "root") → ¬(n = "default") →
        (⟨Target.secondary, CallOp.deletePolicy n⟩ : Call) ∈ (clearSecondary f s).1) ∧
    (∀ c ∈ (clearSecondary f s).1, ∀ q, c.op = CallOp.disableSecretEngine q →
        strStartsWith q "sys/" = false ∧ strStartsWith q "identity/" = false) := by
  refine ⟨?_, ?_, ?_, ?_⟩
  · intro e he hs hi
    rw [clearSecondary_calls_eq f s h1 h2 h3]
    have hmemEng : (⟨Target.secondary, CallOp.disableSecretEngine (rstripSlash e.1)⟩ : Call) ∈
        (resetEnginePaths s).map (fun p => ⟨Target.secondary, CallOp.disableSecretEngine p⟩) := by
      rw [List.mem_map]
      exact ⟨rstripSlash e.1, (resetEnginePaths_mem s _).mpr ⟨e, he, hs, hi, rfl⟩, rfl⟩
    exact List.mem_append_left _ (List.mem_append_left _ (List.mem_append_left _
      (List.mem_append_left _ (List.mem_append_right _ hmemEng))))
  · intro a ha ht hs
    rw [clearSecondary_calls_eq f s h1 h2 h3]
    have hmemAuth : (⟨Target.secondary, CallOp.disableAuthMethod (rstripSlash a.1)⟩ : Call) ∈
        (resetAuthPaths s).map (fun p => ⟨Target.secondary, CallOp.disableAuthMethod p⟩) := by
      rw [List.mem_map]
      exact ⟨rstripSlash a.1, (resetAuthPaths_mem s _).mpr ⟨a, ha, ht, hs, rfl⟩, rfl⟩
    exact List.mem_append_left _ (List.mem_append_left _
      (List.mem_append_right _ hmemAuth))
  · intro n hn h1' h2'
    rw [clearSecondary_calls_eq f s h1 h2 h3]
    have hmemPol : (⟨Target.secondary, CallOp.deletePolicy n⟩ : Call) ∈
        (resetPolicyNames s).map (fun n => ⟨Target.secondary, CallOp.deletePolicy n⟩) := by
      rw [List.mem_map]
      exact ⟨n, (resetPolicyNames_mem s n).mpr ⟨hn, h1', h2'⟩, rfl⟩
    exact List.mem_append_right _ hmemPol
  · intro c hc q hop
    rw [clearSecondary_calls_eq f s h1 h2 h3] at hc
    simp only [List.mem_append, List.mem_singleton, List.mem_map] at hc
    rcases hc with ((((hc | ⟨d, hd, hc⟩) | hc) | ⟨d, hd, hc⟩) | hc) | ⟨d, hd, hc⟩
    · rw [hc] at hop
      exact absurd hop (by simp)
    · rw [← hc] at hop
      have hqd : q = d := (CallOp.disableSecretEngine.inj hop).symm
      obtain ⟨e, he, hs, hi, hde⟩ := (resetEnginePaths_mem s d).mp hd
      subst hqd
      subst hde
      constructor
      · rw [Bool.eq_false_iff]
        intro htrue
        rw [strStartsWith_rstripSlash e.1 "sys/" htrue] at hs
        exact absurd hs (by simp)
      · rw [Bool.eq_false_iff]
        intro htrue
        rw [strStartsWith_rstripSlash e.1 "identity/" htrue] at hi
        exact absurd hi (by simp)
    · rw [hc] at hop
      exact absurd hop (by simp)
    · rw [← hc] at hop
      exact absurd hop (by simp)
    · rw [hc] at hop
      exact absurd hop (by simp)
    · rw [← hc] at hop
      exact absurd hop (by simp)

/-- Witness for C2 (amended): on the concrete secondary, the non-system
engine `old/` is disabled by the reset. -/
theorem clearSecondary_protects_only_system_witness :
    (⟨Target.secondary, CallOp.disableSecretEngine (rstripSlash "old/")⟩ : Call) ∈
      (clearSecondary noFaults secEx).1 :=
  (clearSecondary_protects_only_system noFaults secEx rfl rfl rfl).1
    ("old/", kvConfig) (by decide) (by decide) (by decide)

/-! ## C6 -/

/-- Primary instance whose auth listing contains a `sys/`-prefixed entry. -/
def primC6 : InstanceState :=
  { healthy := true
    engines := []
    auths := [("sys/wrapping/", ⟨some "approle", "", [], []⟩)]
    policies := []
    policyDocs := []
    secrets := []
    kvWrites := [] }

/-- Counterexample to C6: `_sync_auth_methods` only skips the exact path
`token/`; a `sys/`-prefixed auth method in the primary listing is enabled on
the secondary (with an empty exclusion set). -/
theorem syncAuthMethods_enables_sys_prefixed :
    strStartsWith "sys/wrapping/" "sys/" = true ∧
    (⟨Target.secondary, CallOp.enableAuthMethod "sys/wrapping" "approle" "" []⟩ : Call) ∈
      (syncAuthMethods [] noFaults primC6 noFaults).1 := by decide

/-- Claim C6 (amended): the engines replicator never enables a `sys/`- or
`identity/`-prefixed mount; the auth replicator skips only the exact listing
entry `token/` (so every issued auth enable stems from a non-`token/` entry —
`sys/`-prefixed auth entries are not specially protected); the policy
replicator never writes the reserved names `root` and `default`. -/
theorem replicators_skip_protected (excl : List String) (fp : Faults)
    (p : InstanceState) (fs : Faults) :
    (∀ c ∈ (syncSecretEngines excl fp p fs).1, ∀ q t d cf o,
        c.op = CallOp.enableSecretEngine q t d cf o →
        strStartsWith q "sys/" = false ∧ strStartsWith q "identity/" = false) ∧
    (∀ c ∈ (syncAuthMethods excl fp p fs).1, ∀ q t d cf,
        c.op = CallOp.enableAuthMethod q t d cf →
        ∃ a ∈ p.auths, ¬(a.1 = "token/") ∧ q = rstripSlash a.1) ∧
    (∀ c ∈ (syncPolicies fp p fs).1, ∀ n doc, c.op = CallOp.writePolicy n doc →
        ¬(n = "root") ∧ ¬(n = "default")) := by
  refine ⟨?_, ?_, ?_⟩
  · intro c hc q t d cf o hop
    unfold syncSecretEngines at hc
    split at hc
    · simp only [List.mem_singleton] at hc
      rw [hc] at hop
      exact absurd hop (by simp)
    · rw [foldl_acc_norm _ _ _ (syncStep_shape fs (engineEnableCallOf excl))] at hc
      simp only [List.mem_append, List.mem_singleton, List.mem_flatMap] at hc
      rcases hc with hc | ⟨x, hx, hcx⟩
      · rw [hc] at hop
        exact absurd hop (by simp)
      · unfold stepEmit at hcx
        cases hcall : engineEnableCallOf excl x with
        | none => rw [hcall] at hcx; exact absurd hcx (by simp)
        | some c' =>
            rw [hcall] at hcx
            simp only [Option.toList_some, List.mem_singleton] at hcx
            obtain ⟨_, hsys, hid, t', _, _, hceq⟩ := engineEnableCallOf_spec excl x c' hcall
            rw [hcx, hceq] at hop
            have hq : q = rstripSlash x.1 := ((CallOp.enableSecretEngine.inj hop).1).symm
            subst hq
            constructor
            · rw [Bool.eq_false_iff]
              intro htrue
              rw [strStartsWith_rstripSlash x.1 "sys/" htrue] at hsys
              exact absurd hsys (by simp)
            · rw [Bool.eq_false_iff]
              intro htrue
              rw [strStartsWith_rstripSlash x.1 "identity/" htrue] at hid
              exact absurd hid (by simp)
  · intro c hc q t d cf hop
    unfold syncAuthMethods at hc
    split at hc
    · simp only [List.mem_singleton] at hc
      rw [hc] at hop
      exact absurd hop (by simp)
    · rw [foldl_acc_norm _ _ _ (syncStep_shape fs (authEnableCallOf excl))] at hc
      simp only [List.mem_append, List.mem_singleton, List.mem_flatMap] at hc
      rcases hc with hc | ⟨x, hx, hcx⟩
      · rw [hc] at hop
        exact absurd hop (by simp)
      · unfold stepEmit at hcx
        cases hcall : authEnableCallOf excl x with
        | none => rw [hcall] at hcx; exact absurd hcx (by simp)
        | some c' =>
            rw [hcall] at hcx
            simp only [Option.toList_some, List.mem_singleton] at hcx
            obtain ⟨_, htok, t', _, _, hceq⟩ := authEnableCallOf_spec excl x c' hcall
            rw [hcx, hceq] at hop
            have hq : q = rstripSlash x.1 := ((CallOp.enableAuthMethod.inj hop).1).symm
            exact ⟨x, hx, htok, hq⟩
  · intro c hc n doc hop
    unfold syncPolicies at hc
    split at hc
    · simp only [List.mem_singleton] at hc
      rw [hc] at hop
      exact absurd hop (by simp)
    · rw [foldl_acc_norm (policyStep fp p fs) (policyCallsOf fp p)
          (fun n => (policyCallsOf fp p n).all (fun c => callSucceeds fs c.op))
          (fun acc n => rfl)] at hc
      simp only [List.mem_append, List.mem_singleton, List.mem_flatMap] at hc
      rcases hc with hc | ⟨x, hx, hcx⟩
      · rw [hc] at hop
        exact absurd hop (by simp)
      · obtain ⟨hres, hor⟩ := policyCallsOf_mem fp p x c hcx
        rcases hor with hc' | ⟨doc', _, hc'⟩
        · rw [hc'] at hop
          exact absurd hop (by simp)
        · rw [hc'] at hop
          have hn : n = x := ((CallOp.writePolicy.inj hop).1).symm
          rw [hn]
          exact hres

/-- Witness for C6 (amended): on the concrete primary, the issued engine
enable call names `secret`, which is neither `sys/`- nor
`identity/`-prefixed. -/
theorem replicators_skip_protected_witness :
    strStartsWith "secret" "sys/" = false ∧ strStartsWith "secret" "identity/" = false :=
  (replicators_skip_protected [] noFaults primEx noFaults).1
    ⟨Target.secondary,
      CallOp.enableSecretEngine "secret" "kv" "key value store" [] []⟩
    (by decide) "secret" "kv" "key value store" [] [] rfl

/-! ## C7 -/

theorem stepOk_eq_all {α : Type} (fs : Faults) (callOf : α → Option Call) (x : α) :
    stepOk fs callOf x = (stepEmit callOf x).all (fun c => callSucceeds fs c.op) := by
  cases h : callOf x
  · simp [stepOk, stepEmit, h]
  · simp [stepOk, stepEmit, h]

theorem all_flatMap_iff {α : Type} (pvt : Call → Bool) (em : α → List Call)
    (l : List α) :
    (l.all (fun x => (em x).all pvt) = true ↔ ∀ c ∈ l.flatMap em, pvt c = true) := by
  rw [List.all_eq_true]
  constructor
  · intro h c hc
    rw [List.mem_flatMap] at hc
    obtain ⟨x, hx, hcx⟩ := hc
    have hx' := h x hx
    rw [List.all_eq_true] at hx'
    exact hx' c hcx
  · intro h x hx
    rw [List.all_eq_true]
    intro c hc
    exact h c (List.mem_flatMap.mpr ⟨x, hx, hc⟩)

theorem head_cons_flat_ok_iff {α : Type} (pvt : Call → Bool) (em : α → List Call)
    (l : List α) (c0 : Call) (hc0 : pvt c0 = true) :
    (l.all (fun x => (em x).all pvt) = true ↔
      ∀ c ∈ c0 :: l.flatMap em, pvt c = true) := by
  rw [all_flatMap_iff]
  constructor
  · intro h c hc
    rcases List.mem_cons.mp hc with hce | hc
    · rw [hce]; exact hc0
    · exact h c hc
  · intro h c hc
    exact h c (List.mem_cons_of_mem c0 hc)

theorem mountSyncOf_ok_iff (excl : List String) (fp fs : Faults)
    (p : InstanceState) (e : String × MountConfig) :
    (mountSyncOf excl fp fs p e).2 =
      ((mountSyncOf excl fp fs p e).1).all (fun c => callSucceeds fs c.op) := by
  unfold mountSyncOf
  split
  · simp
  · split
    · simp
    · exact ssr_ok_iff_calls fs fp.readSecretFails
        (mountTree p (rstripSlash e.1)) (rstripSlash e.1) ""

theorem mountSyncOf_trace_indep (excl : List String) (fp fs fs2 : Faults)
    (p : InstanceState) (e : String × MountConfig) :
    (mountSyncOf excl fp fs p e).1 = (mountSyncOf excl fp fs2 p e).1 := by
  unfold mountSyncOf
  split
  · rfl
  · split
    · rfl
    · exact ssr_trace_wf_indep fp.readSecretFails fs.writeSecretFails
        fs2.writeSecretFails (mountTree p (rstripSlash e.1)) (rstripSlash e.1) ""

/-- Claim C7: in every replication phase, the sequence of attempted calls does not
depend on which apply calls fail (a failed item never stops the processing of
later items), and the phase's aggregate boolean is true exactly when every
issued call succeeded. -/
theorem phases_best_effort (excl : List String) (fp : Faults) (p : InstanceState)
    (fs fs2 : Faults) (hE : fp.parseFailEngines = false)
    (hA : fp.parseFailAuths = false) (hP : fp.parseFailPolicies = false) :
    ((syncSecretEngines excl fp p fs).1 = (syncSecretEngines excl fp p fs2).1 ∧
     (syncAuthMethods excl fp p fs).1 = (syncAuthMethods excl fp p fs2).1 ∧
     (syncPolicies fp p fs).1 = (syncPolicies fp p fs2).1 ∧
     (syncSecrets excl fp p fs).1 = (syncSecrets excl fp p fs2).1) ∧
    (((syncSecretEngines excl fp p fs).2 = true ↔
        ∀ c ∈ (syncSecretEngines excl fp p fs).1, callSucceeds fs c.op = true) ∧
     ((syncAuthMethods excl fp p fs).2 = true ↔
        ∀ c ∈ (syncAuthMethods excl fp p fs).1, callSucceeds fs c.op = true) ∧
     ((syncPolicies fp p fs).2 = true ↔
        ∀ c ∈ (syncPolicies fp p fs).1, callSucceeds fs c.op = true) ∧
     ((syncSecrets excl fp p fs).2 = true ↔
        ∀ c ∈ (syncSecrets excl fp p fs).1, callSucceeds fs c.op = true)) := by
  refine ⟨⟨?_, ?_, ?_, ?_⟩, ?_, ?_, ?_, ?_⟩
  · rw [syncSecretEngines_eq excl fp p fs hE, syncSecretEngines_eq excl fp p fs2 hE]
  · rw [syncAuthMethods_eq excl fp p fs hA, syncAuthMethods_eq excl fp p fs2 hA]
  · rw [syncPolicies_eq fp p fs hP, syncPolicies_eq fp p fs2 hP]
  · rw [syncSecrets_eq excl fp p fs hE, syncSecrets_eq excl fp p fs2 hE]
    dsimp only
    have hfun : (fun e => (mountSyncOf excl fp fs p e).1) =
        (fun e => (mountSyncOf excl fp fs2 p e).1) :=
      funext (mountSyncOf_trace_indep excl fp fs fs2 p)
    rw [hfun]
  · rw [syncSecretEngines_eq excl fp p fs hE]
    dsimp only
    have hfun : stepOk fs (engineEnableCallOf excl) =
        fun x => (stepEmit (engineEnableCallOf excl) x).all (fun c => callSucceeds fs c.op) :=
      funext (stepOk_eq_all fs (engineEnableCallOf excl))
    rw [hfun]
    exact head_cons_flat_ok_iff _ _ _ _ rfl
  · rw [syncAuthMethods_eq excl fp p fs hA]
    dsimp only
    have hfun : stepOk fs (authEnableCallOf excl) =
        fun x => (stepEmit (authEnableCallOf excl) x).all (fun c => callSucceeds fs c.op) :=
      funext (stepOk_eq_all fs (authEnableCallOf excl))
    rw [hfun]
    exact head_cons_flat_ok_iff _ _ _ _ rfl
  · rw [syncPolicies_eq fp p fs hP]
    dsimp only
    exact head_cons_flat_ok_iff _ _ _ _ rfl
  · rw [syncSecrets_eq excl fp p fs hE]
    dsimp only
    simp only [mountSyncOf_ok_iff]
    exact head_cons_flat_ok_iff _ _ _ _ rfl

/-- Primary with two engines, used to exhibit best-effort continuation. -/
def primC7 : InstanceState :=
  { healthy := true
    engines := [("a/", kvConfig), ("b/", kvConfig)]
    auths := []
    policies := []
    policyDocs := []
    secrets := []
    kvWrites := [] }

/-- Secondary faults failing the enable of engine `a` only. -/
def fsAFail : Faults := { noFaults with enableEngineFails := ["a"] }

/-- Witness for C7: with engine `a`'s enable failing, the engines phase still
attempts the same calls as with no faults (so `b` is still enabled), and the
aggregate result is characterized by the per-call outcomes. -/
theorem phases_best_effort_witness :
    (syncSecretEngines [] noFaults primC7 fsAFail).1 =
      (syncSecretEngines [] noFaults primC7 noFaults).1 ∧
    ((syncSecretEngines [] noFaults primC7 fsAFail).2 = true ↔
      ∀ c ∈ (syncSecretEngines [] noFaults primC7 fsAFail).1,
        callSucceeds fsAFail c.op = true) :=
  ⟨((phases_best_effort [] noFaults primC7 fsAFail noFaults rfl rfl rfl).1).1,
   ((phases_best_effort [] noFaults primC7 fsAFail noFaults rfl rfl rfl).2).1⟩

/-! ## C5 -/

theorem readSecretPaths_flatMap {α : Type} (em : α → List Call) (l : List α) :
    readSecretPaths (l.flatMap em) = l.flatMap (fun x => readSecretPaths (em x)) := by
  induction l with
  | nil => rfl
  | cons x xs ih =>
      rw [List.flatMap_cons, List.flatMap_cons, readSecretPaths_append, ih]

/-- Primary instance with a mount whose subtree extends below an exclusion
prefix that is strictly longer than the mount path. -/
def primC5 : InstanceState :=
  { healthy := true
    engines := [("secret/", kvConfig)]
    auths := []
    policies := []
    policyDocs := []
    secrets := [("secret",
      .dir (.cons "foo" (.dir (.cons "bar" (.leaf [("k", "v")]) .nil)) .nil))]
    kvWrites := [] }

/-- Counterexample to C5: with exclusion set `["secret/foo"]`, the mount
`secret/` passes the (mount-level) exclusion check, and the traversal then
reads and writes `secret/foo/bar` — a secret path that starts with the
exclusion prefix `secret/foo`. -/
theorem syncSecrets_reads_excluded_prefix_path :
    shouldExcludePath ["secret/foo"] "secret/" = false ∧
    strStartsWith "secret/foo/bar" "secret/foo" = true ∧
    (⟨Target.primary, CallOp.readSecret "secret/foo/bar"⟩ : Call) ∈
      (syncSecrets ["secret/foo"] noFaults primC5 noFaults).1 ∧
    (⟨Target.secondary, CallOp.writeSecret "secret/foo/bar" [("k", "v")]⟩ : Call) ∈
      (syncSecrets ["secret/foo"] noFaults primC5 noFaults).1 := by decide

/-- Claim C5 (amended): one secret-replication pass reads exactly the leaves
reachable from each non-excluded, non-system mount's root, each exactly once,
in traversal order; exclusion is applied only at mount granularity (the
per-mount leaf enumeration is not filtered by the exclusion set). -/
theorem syncSecrets_reads_eq_leafPaths (excl : List String) (fp : Faults)
    (p : InstanceState) (fs : Faults) (h : fp.parseFailEngines = false) :
    readSecretPaths (syncSecrets excl fp p fs).1 =
      p.engines.flatMap (fun e =>
        if shouldExcludePath excl e.1 then []
        else if strStartsWith e.1 "sys/" || strStartsWith e.1 "identity/" then []
        else leafPathsAux (mountTree p (rstripSlash e.1)) (rstripSlash e.1) "") := by
  rw [syncSecrets_eq excl fp p fs h]
  dsimp only
  have hcons : readSecretPaths ((⟨Target.primary, CallOp.listSecretEngines⟩ : Call) ::
      p.engines.flatMap (fun e => (mountSyncOf excl fp fs p e).1)) =
      readSecretPaths (p.engines.flatMap (fun e => (mountSyncOf excl fp fs p e).1)) := by
    simp [readSecretPaths]
  rw [hcons, readSecretPaths_flatMap]
  congr 1
  funext e
  by_cases h1 : shouldExcludePath excl e.1 = true
  · simp [mountSyncOf, h1, readSecretPaths]
  · by_cases h2 : (strStartsWith e.1 "sys/" || strStartsWith e.1 "identity/") = true
    · simp [mountSyncOf, h1, h2, readSecretPaths]
    · simp only [mountSyncOf, h1, h2, if_false, Bool.false_eq_true]
      exact readSecretPaths_ssr fp.readSecretFails fs.writeSecretFails
        (mountTree p (rstripSlash e.1)) (rstripSlash e.1) ""

/-- Witness for C5 (amended): on the concrete primary, the reads of the pass
are exactly the leaf enumeration of its single kv mount. -/
theorem syncSecrets_reads_eq_leafPaths_witness :
    readSecretPaths (syncSecrets [] noFaults primEx noFaults).1 =
      primEx.engines.flatMap (fun e =>
        if shouldExcludePath [] e.1 then []
        else if strStartsWith e.1 "sys/" || strStartsWith e.1 "identity/" then []
        else leafPathsAux (mountTree primEx (rstripSlash e.1)) (rstripSlash e.1) "") :=
  syncSecrets_reads_eq_leafPaths [] noFaults primEx noFaults rfl

/-! ## C8 -/

theorem applySecondary_listEngines (f : Faults) (st : InstanceState) :
    applySecondary f st [(⟨Target.secondary, CallOp.listSecretEngines⟩ : Call)] = st := rfl

theorem applySecondary_listAuths (f : Faults) (st : InstanceState) :
    applySecondary f st [(⟨Target.secondary, CallOp.listAuthMethods⟩ : Call)] = st := rfl

theorem applySecondary_listPolicies (f : Faults) (st : InstanceState) :
    applySecondary f st [(⟨Target.secondary, CallOp.listPolicies⟩ : Call)] = st := rfl

/-- Claim C8: if a reset run succeeds (and its disables/deletes take effect),
running the reset again on the resulting secondary state issues no disable or
delete call — only the three listing calls — and still returns success. -/
theorem clearSecondary_idempotent (f : Faults) (s : InstanceState)
    (hok : (clearSecondary f s).2 = true)
    (h4 : f.disableEngineFails = []) (h5 : f.disableAuthFails = [])
    (h6 : f.deletePolicyFails = []) :
    (clearSecondary f (applySecondary f s (clearSecondary f s).1)).2 = true ∧
    ∀ c ∈ (clearSecondary f (applySecondary f s (clearSecondary f s).1)).1,
      c.op.isMutating = false := by
  obtain ⟨h1, h2, h3⟩ := (clearSecondary_ok_iff f s).mp hok
  have hcalls := clearSecondary_calls_eq f s h1 h2 h3
  set s1 := applySecondary f s (clearSecondary f s).1 with hs1def
  have hs1 : s1 = { s with
      engines := s.engines.filter
        (fun e => !((resetEnginePaths s).any (fun d => rstripSlash e.1 == d))),
      auths := s.auths.filter
        (fun a => !((resetAuthPaths s).any (fun d => rstripSlash a.1 == d))),
      policies := s.policies.filter
        (fun m => !((resetPolicyNames s).any (fun n => m == n))),
      policyDocs := s.policyDocs.filter
        (fun d2 => !((resetPolicyNames s).any (fun n => d2.1 == n))) } := by
    rw [hs1def, hcalls]
    rw [applySecondary_append, applySecondary_append, applySecondary_append,
        applySecondary_append, applySecondary_append]
    rw [applySecondary_listEngines, applySecondary_engineDisables f h4,
        applySecondary_listAuths, applySecondary_authDisables f h5,
        applySecondary_listPolicies, applySecondary_policyDeletes f h6]
  have hRE : resetEnginePaths s1 = [] := by
    unfold resetEnginePaths
    rw [List.filterMap_eq_nil_iff]
    intro e he
    rw [hs1] at he
    simp only [List.mem_filter] at he
    obtain ⟨hmem, hpred⟩ := he
    by_cases hcond : (!strStartsWith e.1 "sys/" && !strStartsWith e.1 "identity/") = true
    · exfalso
      obtain ⟨hs', hi'⟩ := band_not_not_true hcond
      have hin : rstripSlash e.1 ∈ resetEnginePaths s :=
        (resetEnginePaths_mem s _).mpr ⟨e, hmem, hs', hi', rfl⟩
      have hany : (resetEnginePaths s).any (fun d => rstripSlash e.1 == d) = true :=
        List.any_eq_true.mpr ⟨rstripSlash e.1, hin, beq_self_eq_true _⟩
      rw [hany] at hpred
      exact absurd hpred (by simp)
    · rw [if_neg hcond]
  have hRA : resetAuthPaths s1 = [] := by
    unfold resetAuthPaths
    rw [List.filterMap_eq_nil_iff]
    intro a ha
    rw [hs1] at ha
    simp only [List.mem_filter] at ha
    obtain ⟨hmem, hpred⟩ := ha
    by_cases hcond : (!(a.1 == "token/") && !strStartsWith a.1 "sys/") = true
    · exfalso
      obtain ⟨ht', hs'⟩ := band_not_not_true hcond
      have hin : rstripSlash a.1 ∈ resetAuthPaths s :=
        (resetAuthPaths_mem s _).mpr ⟨a, hmem, beq_eq_false_iff_ne.mp ht', hs', rfl⟩
      have hany : (resetAuthPaths s).any (fun d => rstripSlash a.1 == d) = true :=
        List.any_eq_true.mpr ⟨rstripSlash a.1, hin, beq_self_eq_true _⟩
      rw [hany] at hpred
      exact absurd hpred (by simp)
    · rw [if_neg hcond]
  have hRP : resetPolicyNames s1 = [] := by
    unfold resetPolicyNames
    rw [List.filter_eq_nil_iff]
    intro n hn
    rw [hs1] at hn
    simp only [List.mem_filter] at hn
    obtain ⟨hmem, hpred⟩ := hn
    intro hcond
    obtain ⟨hr', hd'⟩ := band_not_not_true hcond
    have hin : n ∈ resetPolicyNames s :=
      (resetPolicyNames_mem s n).mpr
        ⟨hmem, beq_eq_false_iff_ne.mp hr', beq_eq_false_iff_ne.mp hd'⟩
    have hany : (resetPolicyNames s).any (fun m => n == m) = true :=
      List.any_eq_true.mpr ⟨n, hin, beq_self_eq_true _⟩
    rw [hany] at hpred
    exact absurd hpred (by simp)
  have hcalls2 := clearSecondary_calls_eq f s1 h1 h2 h3
  rw [hRE, hRA, hRP] at hcalls2
  simp only [List.map_nil, List.append_nil, List.nil_append] at hcalls2
  constructor
  · exact (clearSecondary_ok_iff f s1).mpr ⟨h1, h2, h3⟩
  · intro c hc
    rw [hcalls2] at hc
    simp only [List.mem_append, List.mem_singleton] at hc
    rcases hc with (hc | hc) | hc
    · rw [hc]; rfl
    · rw [hc]; rfl
    · rw [hc]; rfl

/-- Witness for C8: on the concrete stale secondary, a second reset issues
only the three listing calls and reports success. -/
theorem clearSecondary_idempotent_witness :
    (clearSecondary noFaults
        (applySecondary noFaults secEx (clearSecondary noFaults secEx).1)).2 = true ∧
    ∀ c ∈ (clearSecondary noFaults
        (applySecondary noFaults secEx (clearSecondary noFaults secEx).1)).1,
      c.op.isMutating = false :=
  clearSecondary_idempotent noFaults secEx rfl rfl rfl rfl
